import Mathlib

/-!
Verification development for the `tui-json-viewer` repository (src/main.go).

The program's core logic — the JSON text colorizer (`colorizeJSON`), the
offset-based literal/regex search (`performSearch`), the line-oriented
interactive search and its navigation (`appState.performSearch`,
`findNextResult`, `findPreviousResult`, `cancelSearch`, `startSearch`), and
the directory reload path (`reloadJSONFiles`, `loadJSONFilesWithContext`) —
is embedded shallowly below over `List Char` (Go strings are byte slices;
all inputs considered here are ASCII, where byte indices and character
indices coincide).  Go's `regexp` package uses leftmost-first (Perl-style)
matching; each of the seven fixed regular expressions of the colorizer is
embedded as a deterministic matcher that realizes exactly the leftmost-first
semantics of that particular pattern, and `ReplaceAllString(Func)` is
embedded as a left-to-right scan that rewrites non-overlapping matches and
never rescans replacement text.  Loops whose termination is not structural
are given explicit fuel; theorems either fix a sufficient fuel or prove
fuel-independence.
-/

/-- Character class `\s` of Go's regexp: `[\t\n\f\r ]`. -/
def goSpace (c : Char) : Bool :=
  c = ' ' || c = '\t' || c = '\n' || c = '\x0c' || c = '\r'

/-- Character class `\w` of Go's regexp: `[0-9A-Za-z_]` (used by `\b`). -/
def isWordChar (c : Char) : Bool :=
  c.isAlphanum || c = '_'

/-- Embeds Go `strings.Index` restricted to a `some`-index result: the least
`n` such that `pat` occurs in `s` at offset `n`, `none` if there is none.
`strings.Index(s, "") = 0`, which the `isPrefixOf`-first test reproduces. -/
def strIndexNat (s pat : List Char) : Option Nat :=
  if pat.isPrefixOf s then some 0
  else
    match s with
    | [] => none
    | _ :: t => (strIndexNat t pat).map (fun n => n + 1)

/-- Go `strings.Index`: first occurrence offset, `-1` when absent. -/
def strIndex (s pat : List Char) : Int :=
  match strIndexNat s pat with
  | some n => (n : Int)
  | none => -1

/-- Whether `pat` occurs somewhere in `s`. -/
def hasSubstr (s pat : List Char) : Bool :=
  (strIndexNat s pat).isSome

/-! ## The colorizer (src/main.go:90-142)

Color directives inserted by `colorizeJSON`, exactly the string constants of
the source. -/

def keyColor : List Char := "[blue]".data
def stringColor : List Char := "[lightgreen]".data
def arrayStringColor : List Char := "[green]".data
def numberColor : List Char := "[yellow]".data
def arrayNumberColor : List Char := "[yellow]".data
def booleanColor : List Char := "[lightblue]".data
def nullColor : List Char := "[red]".data
def resetColor : List Char := "[-]".data

/-- The set of directive tokens the colorizer can insert. -/
def allTags : List (List Char) :=
  [keyColor, stringColor, arrayStringColor, numberColor, booleanColor,
   nullColor, resetColor]

/-- Last element of `l` if nonempty, else the fallback `d`. -/
def lastOr (d : Option Char) (l : List Char) : Option Char :=
  match l.getLast? with
  | some c => some c
  | none => d

/-- Embeds `Regexp.ReplaceAllString(Func)` for a fixed pattern: scan left to
right, rewriting each leftmost non-overlapping match and continuing after its
end (replacement text is never rescanned).  `tryFn` receives the character
preceding the current position (for `\b`) and the remaining input, and
returns the match length (always positive for the patterns used here) with
the replacement text.  Fuel `s.length` suffices since every step consumes at
least one input character. -/
def replaceScan (tryFn : Option Char → List Char → Option (Nat × List Char)) :
    Nat → Option Char → List Char → List Char
  | 0, _, s => s
  | fuel + 1, prev, s =>
    match s with
    | [] => []
    | c :: rest =>
      match tryFn prev (c :: rest) with
      | some (len, rep) =>
          rep ++ replaceScan tryFn fuel (lastOr prev (List.take len (c :: rest)))
                  (List.drop len (c :: rest))
      | none => c :: replaceScan tryFn fuel (some c) rest

/-- Run one colorizer pass over the whole string. -/
def runPass (tryFn : Option Char → List Char → Option (Nat × List Char))
    (s : List Char) : List Char :=
  replaceScan tryFn s.length none s

/-- Matcher for `keyRegex = "([^"]+)":\s*` anchored at the head of `s`, with
replacement template `keyColor + "\"$1\"" + resetColor + ": "`.  Leftmost-first
matching of this pattern is deterministic: the greedy `[^"]+` can only end at
the next quote, and the greedy `\s*` takes the maximal whitespace run. -/
def keyTry (s : List Char) : Option (Nat × List Char) :=
  match s with
  | '"' :: t =>
    let name := t.takeWhile (fun c => c ≠ '"')
    if name.isEmpty then none
    else
      match t.drop name.length with
      | '"' :: ':' :: u =>
        let ws := u.takeWhile goSpace
        some (name.length + 3 + ws.length,
          keyColor ++ '"' :: (name ++ '"' :: (resetColor ++ [':', ' '])))
      | _ => none
  | _ => none

/-- Matcher for `stringRegex = :\s*"([^"]*?)"` with the function replacement
`s[:2] + stringColor + s[2:len(s)-1] + resetColor + s[len(s)-1:]`.  The lazy
`[^"]*?` stops at the first quote, which is also the only place it can stop. -/
def stringValTry (s : List Char) : Option (Nat × List Char) :=
  match s with
  | ':' :: t =>
    let ws := t.takeWhile goSpace
    match t.drop ws.length with
    | '"' :: u =>
      let body := u.takeWhile (fun c => c ≠ '"')
      match u.drop body.length with
      | '"' :: _ =>
        let m := ':' :: (ws ++ '"' :: (body ++ ['"']))
        some (m.length,
          m.take 2 ++ stringColor ++ (m.drop 2).take (m.length - 3) ++
            resetColor ++ m.drop (m.length - 1))
      | _ => none
    | _ => none
  | _ => none

/-- Matcher for the inner pattern `"(.*?)"` of the array-string replacement
(template `arrayStringColor + "\"$1\"" + resetColor`).  `.` excludes
newlines; the lazy body stops at the first quote. -/
def quoteTry (s : List Char) : Option (Nat × List Char) :=
  match s with
  | '"' :: u =>
    let body := u.takeWhile (fun c => c ≠ '"')
    if body.all (fun c => c ≠ '\n') then
      match u.drop body.length with
      | '"' :: _ =>
        some (body.length + 2,
          arrayStringColor ++ '"' :: (body ++ '"' :: resetColor))
      | _ => none
    else none
  | _ => none

/-- Tail of `arrayStringRegex` after the first quoted element:
`\s*(,\s*"([^"]*?)"\s*)*]` — returns the consumed text.  Backtracking cannot
rescue a failed iteration (the continuation `]` never matches at a `,`), so
the greedy repetition is deterministic. -/
def arrStrTail : Nat → List Char → Option (List Char)
  | 0, _ => none
  | fuel + 1, s =>
    let ws := s.takeWhile goSpace
    match s.drop ws.length with
    | ']' :: _ => some (ws ++ [']'])
    | ',' :: u =>
      let ws2 := u.takeWhile goSpace
      match u.drop ws2.length with
      | '"' :: v =>
        let body := v.takeWhile (fun c => c ≠ '"')
        match v.drop body.length with
        | '"' :: w =>
          match arrStrTail fuel w with
          | some rest =>
            some (ws ++ ',' :: (ws2 ++ '"' :: (body ++ '"' :: rest)))
          | none => none
        | _ => none
      | _ => none
    | _ => none

/-- Matcher for `arrayStringRegex = \[\s*"([^"]*?)"\s*(,\s*"([^"]*?)"\s*)*]`.
The function replacement rewraps every quoted element of the matched text
with the inner pattern `"(.*?)"`. -/
def arrayStringTry (s : List Char) : Option (Nat × List Char) :=
  match s with
  | '[' :: t =>
    let ws := t.takeWhile goSpace
    match t.drop ws.length with
    | '"' :: u =>
      let body := u.takeWhile (fun c => c ≠ '"')
      match u.drop body.length with
      | '"' :: v =>
        match arrStrTail (v.length + 1) v with
        | some rest =>
          let m := '[' :: (ws ++ '"' :: (body ++ '"' :: rest))
          some (m.length, replaceScan (fun _ s2 => quoteTry s2) m.length none m)
        | none => none
      | _ => none
    | _ => none
  | _ => none

/-- Maximal digit run. -/
def digits (s : List Char) : List Char :=
  s.takeWhile Char.isDigit

/-- Continuation of the numeric fragment: `([eE][-+]?\d+)?` in a context
whose own continuation starts with whitespace, `,`, `}` or `]`.  If an `e`/`E`
is present but not followed by a well-formed exponent the whole match fails,
because no backtracking alternative can consume the `e`. -/
def expTry (acc : List Char) (s : List Char) : Option (List Char) :=
  match s with
  | c :: t =>
    if c = 'e' || c = 'E' then
      let sgn := match t with
        | c2 :: _ => if c2 = '-' || c2 = '+' then [c2] else []
        | [] => []
      let f := digits (t.drop sgn.length)
      if f.isEmpty then none else some (acc ++ c :: (sgn ++ f))
    else some acc
  | [] => some acc

/-- Parses the Go regexp fragment `[-+]?\d*\.?\d+([eE][-+]?\d+)?` at the head
of `s`, in a context whose continuation is `\s*` followed by `,`, `}` or `]`.
Under leftmost-first matching with that continuation the parse is
deterministic: shortened digit runs leave a digit (never whitespace or a
delimiter) at the continuation, a skipped dot leaves a `.`, and a skipped
exponent leaves an `e`, so only the maximal-run parse can succeed.  Returns
the consumed text. -/
def goNumTry (s : List Char) : Option (List Char) :=
  let sgn := match s with
    | c :: _ => if c = '-' || c = '+' then [c] else []
    | [] => []
  let s1 := s.drop sgn.length
  let d := digits s1
  let s2 := s1.drop d.length
  match s2 with
  | '.' :: s3 =>
    let e := digits s3
    if e.isEmpty then none
    else expTry (sgn ++ (d ++ '.' :: e)) (s3.drop e.length)
  | _ =>
    if d.isEmpty then none
    else expTry (sgn ++ d) s2

/-- Matcher for `numberRegex = :\s*([-+]?\d*\.?\d+([eE][-+]?\d+)?)\s*[,}]`
with the function replacement `s[:2] + numberColor + s[2:] + resetColor`
(note: the trailing delimiter is inside the colored span). -/
def numberTry (s : List Char) : Option (Nat × List Char) :=
  match s with
  | ':' :: t =>
    let ws := t.takeWhile goSpace
    match goNumTry (t.drop ws.length) with
    | some num =>
      let u := t.drop (ws.length + num.length)
      let ws2 := u.takeWhile goSpace
      match u.drop ws2.length with
      | d :: _ =>
        if d = ',' || d = '}' then
          let m := ':' :: (ws ++ (num ++ (ws2 ++ [d])))
          some (m.length, m.take 2 ++ numberColor ++ m.drop 2 ++ resetColor)
        else none
      | [] => none
    | none => none
  | _ => none

/-- Matcher for the inner pattern `(\d+)` of the array-number replacement:
wrap each maximal digit run. -/
def digitTry (s : List Char) : Option (Nat × List Char) :=
  match s with
  | c :: _ =>
    if c.isDigit then
      let run := s.takeWhile Char.isDigit
      some (run.length, arrayNumberColor ++ run ++ resetColor)
    else none
  | [] => none

/-- Tail of `arrayNumberRegex` after the first number:
`(?:\s*,\s*[-+]?\d*\.?\d+([eE][-+]?\d+)?)*\s*\]` — returns the consumed
text.  As with the string-array pattern, the greedy repetition is
deterministic. -/
def arrNumTail : Nat → List Char → Option (List Char)
  | 0, _ => none
  | fuel + 1, s =>
    let ws := s.takeWhile goSpace
    match s.drop ws.length with
    | ']' :: _ => some (ws ++ [']'])
    | ',' :: u =>
      let ws2 := u.takeWhile goSpace
      match goNumTry (u.drop ws2.length) with
      | some num =>
        match arrNumTail fuel (u.drop (ws2.length + num.length)) with
        | some rest => some (ws ++ ',' :: (ws2 ++ (num ++ rest)))
        | none => none
      | none => none
    | _ => none

/-- Matcher for
`arrayNumberRegex = \[\s*([-+]?\d*\.?\d+([eE][-+]?\d+)?)(?:\s*,\s*...)*\s*\]`.
The function replacement wraps every digit run of the matched text with the
inner pattern `(\d+)`. -/
def arrayNumberTry (s : List Char) : Option (Nat × List Char) :=
  match s with
  | '[' :: t =>
    let ws := t.takeWhile goSpace
    match goNumTry (t.drop ws.length) with
    | some num =>
      match arrNumTail (t.length + 1) (t.drop (ws.length + num.length)) with
      | some rest =>
        let m := '[' :: (ws ++ (num ++ rest))
        some (m.length, replaceScan (fun _ s2 => digitTry s2) m.length none m)
      | none => none
    | none => none
  | _ => none

/-- Matcher for `booleanRegex = \b(true|false)\b` with replacement
`booleanColor + s + resetColor`.  `prev` is the character before the current
position (word boundary check). -/
def booleanTry (prev : Option Char) (s : List Char) : Option (Nat × List Char) :=
  let prevOk := match prev with
    | none => true
    | some c => !isWordChar c
  if !prevOk then none
  else if "true".data.isPrefixOf s then
    match s.drop 4 with
    | c :: _ =>
      if isWordChar c then none
      else some (4, booleanColor ++ ("true".data ++ resetColor))
    | [] => some (4, booleanColor ++ ("true".data ++ resetColor))
  else if "false".data.isPrefixOf s then
    match s.drop 5 with
    | c :: _ =>
      if isWordChar c then none
      else some (5, booleanColor ++ ("false".data ++ resetColor))
    | [] => some (5, booleanColor ++ ("false".data ++ resetColor))
  else none

/-- Matcher for `nullRegex = :\s*(null)` with the function replacement
`s[:2] + nullColor + s[2:] + resetColor`. -/
def nullTry (s : List Char) : Option (Nat × List Char) :=
  match s with
  | ':' :: t =>
    let ws := t.takeWhile goSpace
    if "null".data.isPrefixOf (t.drop ws.length) then
      let m := ':' :: (ws ++ "null".data)
      some (m.length, m.take 2 ++ nullColor ++ m.drop 2 ++ resetColor)
    else none
  | _ => none

/-- Embeds `colorizeJSON` (src/main.go:90-142): the seven replacement passes
in source order — keys, string values, string values inside arrays, numeric
values, numeric values inside arrays, booleans, null. -/
def colorizeChars (input : List Char) : List Char :=
  let s1 := runPass (fun _ s => keyTry s) input
  let s2 := runPass (fun _ s => stringValTry s) s1
  let s3 := runPass (fun _ s => arrayStringTry s) s2
  let s4 := runPass (fun _ s => numberTry s) s3
  let s5 := runPass (fun _ s => arrayNumberTry s) s4
  let s6 := runPass booleanTry s5
  runPass (fun _ s => nullTry s) s6

/-- String-level wrapper for `colorizeJSON`. -/
def colorizeJSON (s : String) : String :=
  ⟨colorizeChars s.data⟩

/-- First directive token that is a prefix of `s` (no token is a prefix of
another, so this is unambiguous). -/
def firstTag (s : List Char) : Option (List Char) :=
  allTags.find? (fun t => t.isPrefixOf s)

/-- Removes every occurrence of a directive token, scanning left to right.
On text that contains no `[` of its own this inverts any directive-token
insertion.  Fuel `s.length` suffices (every token is at least 3 characters
long). -/
def stripTagsF : Nat → List Char → List Char
  | 0, s => s
  | fuel + 1, s =>
    match s with
    | [] => []
    | c :: rest =>
      match firstTag (c :: rest) with
      | some t => stripTagsF fuel (List.drop t.length (c :: rest))
      | none => c :: stripTagsF fuel rest

/-- Strip all directive tokens from `s`. -/
def stripTags (s : List Char) : List Char :=
  stripTagsF s.length s

/-! ## The offset-based search (src/main.go:299-337) -/

/-- Embeds `searchOptions` (src/main.go:36-39). -/
structure searchOptions where
  caseSensitive : Bool
  useRegex : Bool

/-- Go `strings.ToLower` restricted to ASCII input. -/
def toLowerStr (s : List Char) : List Char :=
  s.map Char.toLower

/-- Embeds the literal-search loop of `performSearch` (src/main.go:325-333):

    pos := 0
    for { index := strings.Index(content[pos:], searchString)
          if index == -1 { break }
          positions = append(positions, pos+index)
          pos += index + len(searchString) }

The Go loop has no fuel; the explicit fuel makes the embedding total.  For a
non-empty query any fuel of at least `content.length + 1` reproduces every
terminating run exactly; for the empty query the Go loop never terminates,
which shows up here as the result growing with the fuel forever. -/
def litScanGo : Nat → List Char → List Char → Nat → List Nat
  | 0, _, _, _ => []
  | fuel + 1, content, q, pos =>
    match strIndexNat (content.drop pos) q with
    | none => []
    | some idx => (pos + idx) :: litScanGo fuel content q (pos + idx + q.length)

/-- Embeds `performSearch` (src/main.go:299-337).  The Go `regexp` engine is
an external collaborator; it is abstracted as `compile`, which returns the
`FindAllStringIndex` pairs of the compiled pattern on `content`, or `none`
when compilation fails.  The result pairs each position list with a flag
recording whether an error was written to the error log. -/
def performSearchGo (compile : List Char → Option (List (Nat × Nat)))
    (content searchString : List Char) (options : searchOptions) :
    List Nat × Bool :=
  if options.useRegex then
    let pat := if options.caseSensitive then searchString
               else "(?i)".data ++ searchString
    match compile pat with
    | none => ([], true)
    | some ms => (ms.map (fun m => m.1), false)
  else
    let c := if options.caseSensitive then content else toLowerStr content
    let q := if options.caseSensitive then searchString else toLowerStr searchString
    (litScanGo (c.length + 1) c q 0, false)

/-- Modelled from the spec: "perform ... literal substring search, scanning
left to right, recording every non-overlapping occurrence's start offset,
advancing the scan cursor past each match (no overlapping matches
returned)."  Position-by-position reference scan, used to state that the
implementation records exactly these occurrences. -/
def specScanLit (q content : List Char) (pos : Nat) : List Nat :=
  if h : q = [] ∨ content.length < pos then []
  else if q.isPrefixOf (content.drop pos) then
    pos :: specScanLit q content (pos + q.length)
  else specScanLit q content (pos + 1)
termination_by content.length + 1 - pos
decreasing_by
  · push_neg at h
    have hq : 0 < q.length := List.length_pos.mpr h.1
    omega
  · push_neg at h
    omega

/-! ## The interactive search state (src/main.go:41-61, 515-576, 677-682) -/

/-- Which widget currently has focus (`app.SetFocus` target). -/
inductive FocusTarget
  | fileList
  | fileContent
  | debugView
deriving DecidableEq

/-- The text placed in the debug view, one constructor per `SetText` call
site of the embedded operations. -/
inductive DebugMsg
  | text (s : List Char)
  | found (n : Nat)
  | resultOf (i n : Int)
  | noResults (q : List Char)
deriving DecidableEq

/-- Embeds the search-relevant fields of `appState` (src/main.go:41-61).
`searchResults` holds `struct{ line, pos int }` pairs as `(line, pos)`;
`highlight` records the line passed to `fileContent.Highlight` (cleared =
`none`); `scrollTo` records the last `fileContent.ScrollTo(pos, line)`
arguments. -/
structure appState where
  searchMode : Bool
  searchString : List Char
  searchResults : List (Int × Int)
  currentSearchIndex : Int
  highlight : Option Int
  scrollTo : Option (Int × Int)
  debugText : DebugMsg
  focus : FocusTarget
deriving DecidableEq

/-- Embeds `appState.cancelSearch` (src/main.go:515-523). -/
def cancelSearch (st : appState) : appState :=
  { st with
    searchMode := false
    searchString := []
    searchResults := []
    currentSearchIndex := 0
    highlight := none
    debugText := .text []
    focus := .fileContent }

/-- Embeds `appState.startSearch` (src/main.go:677-682). -/
def startSearch (st : appState) : appState :=
  { st with
    searchMode := true
    searchString := []
    debugText := .text "Search: ".data
    focus := .debugView }

/-- Embeds `appState.highlightCurrentResult` (src/main.go:543-550).  Go
indexes `searchResults[currentSearchIndex]` directly and would panic out of
range; the embedding reads with `get?` and leaves the state unchanged in the
(unreachable under the search invariant) out-of-range case. -/
def highlightCurrentResult (st : appState) : appState :=
  if st.searchResults.length = 0 then st
  else
    match st.searchResults.get? st.currentSearchIndex.toNat with
    | some r => { st with highlight := some r.1, scrollTo := some (r.2, r.1) }
    | none => st

/-- Embeds `appState.findNextResult` (src/main.go:525-532).  Go `%` on `int`
is truncated-division remainder, i.e. `Int.tmod`. -/
def findNextResult (st : appState) : appState :=
  if st.searchResults.length = 0 then st
  else
    let st1 := { st with
      currentSearchIndex :=
        Int.tmod (st.currentSearchIndex + 1) (st.searchResults.length : Int) }
    let st2 := highlightCurrentResult st1
    { st2 with
      debugText := .resultOf (st2.currentSearchIndex + 1) (st2.searchResults.length : Int) }

/-- Embeds `appState.findPreviousResult` (src/main.go:534-541). -/
def findPreviousResult (st : appState) : appState :=
  if st.searchResults.length = 0 then st
  else
    let st1 := { st with
      currentSearchIndex :=
        Int.tmod (st.currentSearchIndex - 1 + (st.searchResults.length : Int))
          (st.searchResults.length : Int) }
    let st2 := highlightCurrentResult st1
    { st2 with
      debugText := .resultOf (st2.currentSearchIndex + 1) (st2.searchResults.length : Int) }

/-- Go `strings.Split(content, "\n")`. -/
def splitLines : List Char → List (List Char)
  | [] => [[]]
  | c :: t =>
    if c = '\n' then [] :: splitLines t
    else
      match splitLines t with
      | h :: r => (c :: h) :: r
      | [] => [[c]]

/-- Embeds the inner per-line loop of `appState.performSearch`
(src/main.go:560-567):

    index := strings.Index(line, q)
    for index != -1 {
      append {i, index}
      index = strings.Index(line[index+len(q):], q)
      if index != -1 { index += len(q) }
    }

Note the source rebases `index` against the suffix `line[index+len(q):]` but
re-adds only `len(q)`, not the suffix's start offset.  The Go loop has no
fuel; the fuel makes the embedding total and exposes non-termination as the
result growing with the fuel. -/
def searchLineGo (line q : List Char) (i : Int) : Nat → Int → List (Int × Int)
  | 0, _ => []
  | fuel + 1, index =>
    if index = -1 then []
    else
      (i, index) ::
        (let rel := strIndex (line.drop (index + (q.length : Int)).toNat) q
         let index2 := if rel ≠ -1 then rel + (q.length : Int) else rel
         searchLineGo line q i fuel index2)

/-- The whole result-collection loop of `appState.performSearch`
(src/main.go:559-568): every line in order, inner loop per line. -/
def appStateSearchLines (fuel : Nat) (lines : List (List Char)) (q : List Char) :
    List (Int × Int) :=
  lines.enum.flatMap (fun p => searchLineGo p.2 q (p.1 : Int) fuel (strIndex p.2 q))

/-- Embeds `appState.performSearch` (src/main.go:552-576).  `content` stands
for `state.fileContent.GetText(true)`. -/
def appStatePerformSearch (fuel : Nat) (content : List Char) (st : appState) :
    appState :=
  if st.searchString = [] then st
  else
    let lines := splitLines content
    let results := appStateSearchLines fuel lines st.searchString
    let st1 := { st with searchResults := results, currentSearchIndex := 0 }
    if results.length > 0 then
      { highlightCurrentResult st1 with debugText := .found results.length }
    else
      { st1 with debugText := .noResults st.searchString }

/-! ## Directory reload (src/main.go:277-297, 379-423) -/

/-- One entry yielded by the filesystem walker (external collaborator):
`info.Name()` basename and `info.IsDir()`. -/
structure WalkEntry where
  path : List Char
  isDir : Bool
deriving DecidableEq

/-- Error outcome of the walk: the context was cancelled (deadline
exceeded) before completion. -/
inductive WalkErr
  | cancelled
deriving DecidableEq

/-- Whether the context's Done channel is closed when the walker visits
entry number `step` (the context modelled as cancelled from step `k` on). -/
def cancelledAt : Option Nat → Nat → Bool
  | none, _ => false
  | some k, step => decide (k ≤ step)

/-- Embeds the walk callback loop of `loadJSONFilesWithContext`
(src/main.go:277-297): at each visited entry, first check `ctx.Done()` and
abort with the context's error, otherwise append regular files whose
extension is `.json`. -/
def walkEntries (cancelAt : Option Nat) :
    Nat → List WalkEntry → List (List Char) → Except WalkErr (List (List Char))
  | _, [], acc => .ok acc
  | step, e :: rest, acc =>
    if cancelledAt cancelAt step then .error .cancelled
    else
      let acc2 := if !e.isDir && ".json".data.isSuffixOf e.path then
        acc ++ [e.path] else acc
      walkEntries cancelAt (step + 1) rest acc2

/-- Embeds `loadJSONFilesWithContext` (src/main.go:277-297): a failing walk
propagates the (wrapped) error and returns no file list. -/
def loadJSONFilesWithContext (cancelAt : Option Nat) (entries : List WalkEntry) :
    Except WalkErr (List (List Char)) :=
  walkEntries cancelAt 0 entries []

/-- `Except.error`-test for the walk result. -/
def isWalkError : Except WalkErr (List (List Char)) → Bool
  | .error _ => true
  | .ok _ => false

/-- The displayed state `reloadJSONFiles` operates on: the file-list pane's
items, the `actionFuncs` slice (each action loads one path, so an action is
represented by its path), and the debug line. -/
structure FilePane where
  items : List (List Char)
  actions : List (List Char)
  debugText : DebugMsg
deriving DecidableEq

/-- Embeds `reloadJSONFiles` (src/main.go:379-423): `fileList.Clear()` and
`*actionFuncs = nil` run first, before the walk; on walk error only the debug
text is set; on success the list and actions are repopulated. -/
def reloadJSONFiles (cancelAt : Option Nat) (entries : List WalkEntry)
    (pane : FilePane) : FilePane :=
  let cleared : FilePane := { pane with items := [], actions := [] }
  match loadJSONFilesWithContext cancelAt entries with
  | .error _ =>
    { cleared with
      debugText := .text "[red]Failed to load JSON files. Check error log for details.[-]".data }
  | .ok files =>
    { cleared with
      items := files
      actions := files
      debugText := .text "Select a file to view its content.".data }

/-! ## Concrete instances used by the claims -/

/-- Valid pretty-printed JSON (exactly what Go's `json.MarshalIndent` emits
for the object with key `k` and string value `a":b`). -/
def c1Input : String := "\x7b\n  \"k\": \"a\\\":b\"\x0a\x7d"

/-- `colorizeJSON c1Input`, computed by the embedding. -/
def c1Output : String := "\x7b\n  [blue]\"k\"[-]: [blue]\"a\\\"[-]: b\"\x0a\x7d"

/-- The C4 object pretty-printed with 2-space indentation (Go's
`json.MarshalIndent` output; map keys serialize in sorted order). -/
def c4Pretty : String :=
  "\x7b\n  \"a\": \"b\",\n  \"arr\": [\n    \"x\",\n    \"y\"\n  ],\n  \"n\": 1,\n  \"nums\": [\n    1,\n    2,\n    3\n  ],\n  \"t\": true,\n  \"z\": null\n\x7d"

/-- `colorizeJSON c4Pretty`, computed by the embedding. -/
def c4Expected : String :=
  "\x7b\n  [blue]\"a\"[-]: [lightgreen]\"b[-]\",\n  [blue]\"arr\"[-]: [\n    [green]\"x\"[-],\n    [green]\"y\"[-]\n  ],\n  [blue]\"n\"[-]: [yellow]1,[-]\n  [blue]\"nums\"[-]: [\n    [yellow]1[-],\n    [yellow]2[-],\n    [yellow]3[-]\n  ],\n  [blue]\"t\"[-]: [lightblue]true[-],\n  [blue]\"z\"[-]: [red]null[-]\n\x7d"

/-- Content line on which the interactive search loop cycles. -/
def c2Line : List Char := "XaYa".data

/-- Query for the cycling search. -/
def c2Query : List Char := "a".data

/-- Application state about to run the interactive search for `a`. -/
def c2State : appState :=
  { searchMode := false
    searchString := c2Query
    searchResults := []
    currentSearchIndex := 0
    highlight := none
    scrollTo := none
    debugText := .text []
    focus := .fileContent }

/-- A state with one stale search result and a stale query. -/
def c5Prior : appState :=
  { searchMode := false
    searchString := "old".data
    searchResults := [(0, 0)]
    currentSearchIndex := 0
    highlight := none
    scrollTo := none
    debugText := .text []
    focus := .fileContent }

/-- A state with three search results, current index 0. -/
def c8State : appState :=
  { searchMode := false
    searchString := "a".data
    searchResults := [(0, 0), (1, 0), (2, 0)]
    currentSearchIndex := 0
    highlight := none
    scrollTo := none
    debugText := .text []
    focus := .fileContent }

/-- Directory content for the reload counterexample: one regular JSON file. -/
def c3Entries : List WalkEntry := [⟨"a.json".data, false⟩]

/-- Previously populated pane state (one listed file with its action). -/
def c3Prior : FilePane :=
  { items := ["old.json".data]
    actions := ["old.json".data]
    debugText := .text [] }

/-- The search-state invariant of the claim: the current index is in bounds
whenever results exist, and is 0 whenever they do not. -/
def searchInv (st : appState) : Prop :=
  (st.searchResults = [] → st.currentSearchIndex = 0) ∧
  (st.searchResults ≠ [] →
    0 ≤ st.currentSearchIndex ∧
    st.currentSearchIndex < (st.searchResults.length : Int))

/-! ## Helper lemmas -/

/-- Highlighting does not change the stored results. -/
theorem highlightCurrentResult_searchResults (st : appState) :
    (highlightCurrentResult st).searchResults = st.searchResults := by
  unfold highlightCurrentResult
  split
  · rfl
  · split <;> rfl

/-- Highlighting does not change the current index. -/
theorem highlightCurrentResult_currentSearchIndex (st : appState) :
    (highlightCurrentResult st).currentSearchIndex = st.currentSearchIndex := by
  unfold highlightCurrentResult
  split
  · rfl
  · split <;> rfl

/-- Navigation does not change the stored results. -/
theorem findNextResult_searchResults (st : appState) :
    (findNextResult st).searchResults = st.searchResults := by
  unfold findNextResult
  split
  · rfl
  · simp [highlightCurrentResult_searchResults]

/-- Navigation does not change the stored results. -/
theorem findPreviousResult_searchResults (st : appState) :
    (findPreviousResult st).searchResults = st.searchResults := by
  unfold findPreviousResult
  split
  · rfl
  · simp [highlightCurrentResult_searchResults]

/-- The index set by "next" on a non-empty result list. -/
theorem findNextResult_index (st : appState) (h : st.searchResults.length ≠ 0) :
    (findNextResult st).currentSearchIndex =
      Int.tmod (st.currentSearchIndex + 1) (st.searchResults.length : Int) := by
  unfold findNextResult
  simp only [h, if_false]
  rw [highlightCurrentResult_currentSearchIndex]

/-- The index set by "previous" on a non-empty result list. -/
theorem findPreviousResult_index (st : appState) (h : st.searchResults.length ≠ 0) :
    (findPreviousResult st).currentSearchIndex =
      Int.tmod (st.currentSearchIndex - 1 + (st.searchResults.length : Int))
        (st.searchResults.length : Int) := by
  unfold findPreviousResult
  simp only [h, if_false]
  rw [highlightCurrentResult_currentSearchIndex]

/-- After a search with a non-empty query, the results are exactly the
collection-loop output and the index is reset to 0. -/
theorem appStatePerformSearch_state (fuel : Nat) (content : List Char)
    (st : appState) (h : st.searchString ≠ []) :
    (appStatePerformSearch fuel content st).searchResults =
      appStateSearchLines fuel (splitLines content) st.searchString ∧
    (appStatePerformSearch fuel content st).currentSearchIndex = 0 := by
  unfold appStatePerformSearch
  simp only [h, if_false]
  split
  · constructor
    · rw [highlightCurrentResult_searchResults]
    · rw [highlightCurrentResult_currentSearchIndex]
  · exact ⟨rfl, rfl⟩

/-! ## Claim C1 -/

set_option maxRecDepth 100000 in
/-- C1: the claim states that for every valid pretty-printed JSON string,
stripping the inserted color-directive tokens from `colorizeJSON` output
reproduces the input exactly, the passes never inserting, deleting or
reordering content characters.  The code violates this: on the valid
pretty-printed input `{"k": "a\":b"}` (exactly what Go's `MarshalIndent`
emits) the key pass also matches the pseudo-key `"a\":` inside the string
value and rewrites its empty trailing whitespace as a single space — a
non-directive space character is inserted, so stripping the directive tokens
yields `{"k": "a\": b"}`, not the input. -/
theorem c1_colorize_inserts_noncontent_space :
    colorizeJSON c1Input = c1Output ∧
    stripTags (colorizeJSON c1Input).data ≠ c1Input.data ∧
    stripTags (colorizeJSON c1Input).data = "\x7b\n  \"k\": \"a\\\": b\"\x0a\x7d".data := by
  refine ⟨?_, ?_, ?_⟩ <;> decide

/-! ## Claim C3 -/

/-- C3: the claim states that on a failed directory walk the prior displayed
file list and action functions are left intact.  The code violates this:
`reloadJSONFiles` runs `fileList.Clear()` and `*actionFuncs = nil` before
walking, so with a context cancelled before completion the walk errors and
the previously populated pane is left empty, not intact. -/
theorem c3_reload_error_clears_pane :
    isWalkError (loadJSONFilesWithContext (some 0) c3Entries) = true ∧
    (reloadJSONFiles (some 0) c3Entries c3Prior).items = [] ∧
    (reloadJSONFiles (some 0) c3Entries c3Prior).actions = [] ∧
    c3Prior.items ≠ [] := by
  refine ⟨?_, ?_, ?_, ?_⟩ <;> decide

/-! ## Claim C4 -/

set_option maxRecDepth 400000 in
/-- C4 counterexample: the claim states that `colorizeJSON` wraps `"b"` in
the string-value color.  It does not: the string-value replacement puts the
reset token before the closing quote (`[lightgreen]"b[-]"`), so the output
nowhere contains `[lightgreen]"b"[-]`. -/
theorem c4_counterexample :
    hasSubstr (colorizeJSON c4Pretty).data
      (stringColor ++ ("\"b\"".data ++ resetColor)) = false := by
  decide

set_option maxRecDepth 400000 in
/-- C4 amended: on the pretty-printed C4 object the colorizer wraps each key,
each array string element, each array number, `true` and `null` exactly in
their colors, while the string value is wrapped with its closing quote left
outside the colored span (`[lightgreen]"b[-]"`) and the top-level number is
wrapped together with its trailing comma (`[yellow]1,[-]`). -/
theorem c4_colorize_amended :
    colorizeJSON c4Pretty = c4Expected ∧
    hasSubstr c4Expected.data (keyColor ++ ("\"a\"".data ++ resetColor)) = true ∧
    hasSubstr c4Expected.data (keyColor ++ ("\"n\"".data ++ resetColor)) = true ∧
    hasSubstr c4Expected.data (keyColor ++ ("\"t\"".data ++ resetColor)) = true ∧
    hasSubstr c4Expected.data (keyColor ++ ("\"z\"".data ++ resetColor)) = true ∧
    hasSubstr c4Expected.data (keyColor ++ ("\"arr\"".data ++ resetColor)) = true ∧
    hasSubstr c4Expected.data (keyColor ++ ("\"nums\"".data ++ resetColor)) = true ∧
    hasSubstr c4Expected.data (stringColor ++ ("\"b".data ++ resetColor)) = true ∧
    hasSubstr c4Expected.data (numberColor ++ ("1,".data ++ resetColor)) = true ∧
    hasSubstr c4Expected.data (arrayStringColor ++ ("\"x\"".data ++ resetColor)) = true ∧
    hasSubstr c4Expected.data (arrayStringColor ++ ("\"y\"".data ++ resetColor)) = true ∧
    hasSubstr c4Expected.data (arrayNumberColor ++ ("1".data ++ resetColor)) = true ∧
    hasSubstr c4Expected.data (arrayNumberColor ++ ("2".data ++ resetColor)) = true ∧
    hasSubstr c4Expected.data (arrayNumberColor ++ ("3".data ++ resetColor)) = true ∧
    hasSubstr c4Expected.data (booleanColor ++ ("true".data ++ resetColor)) = true ∧
    hasSubstr c4Expected.data (nullColor ++ ("null".data ++ resetColor)) = true := by
  refine ⟨?_, ?_, ?_, ?_, ?_, ?_, ?_, ?_, ?_, ?_, ?_, ?_, ?_, ?_, ?_, ?_⟩ <;> decide

/-! ## Claim C5 -/

/-- C5 counterexample: the claim states that after `startSearch` the stored
match sequence is empty.  It is not: `startSearch` clears only the query, so
a state with one stale result keeps it. -/
theorem c5_counterexample : (startSearch c5Prior).searchResults ≠ [] := by
  decide

/-- C5 amended: `startSearch` enters search mode and clears the prior query,
but leaves the stored match results (and the current index) unchanged; they
are only cleared by `cancelSearch` or replaced by the next search pass. -/
theorem c5_startSearch_amended (st : appState) :
    (startSearch st).searchString = [] ∧
    (startSearch st).searchMode = true ∧
    (startSearch st).searchResults = st.searchResults ∧
    (startSearch st).currentSearchIndex = st.currentSearchIndex :=
  ⟨rfl, rfl, rfl, rfl⟩

/-! ## Claim C2 -/

/-- One loop step from column 1 on line `XaYa`: records `(0, 1)`, then the
rebasing bug computes `Index("Ya", "a") + 1 = 2`. -/
theorem searchLineGo_xaya_one (f : Nat) :
    searchLineGo c2Line c2Query 0 (f + 1) 1 =
      (0, 1) :: searchLineGo c2Line c2Query 0 f 2 := rfl

/-- One loop step from column 2 on line `XaYa`: records `(0, 2)`, then the
rebasing bug computes `Index("a", "a") + 1 = 1` — back to column 1. -/
theorem searchLineGo_xaya_two (f : Nat) :
    searchLineGo c2Line c2Query 0 (f + 1) 2 =
      (0, 2) :: searchLineGo c2Line c2Query 0 f 1 := rfl

/-- The inner loop on line `XaYa` emits one (cycling) entry per fuel unit
from either state of the 1-2 cycle: it never terminates. -/
theorem searchLineGo_xaya_length (f : Nat) :
    (searchLineGo c2Line c2Query 0 f 1).length = f ∧
    (searchLineGo c2Line c2Query 0 f 2).length = f := by
  induction f with
  | zero => exact ⟨rfl, rfl⟩
  | succ f ih =>
    constructor
    · rw [searchLineGo_xaya_one]
      simpa using ih.2
    · rw [searchLineGo_xaya_two]
      simpa using ih.1

/-- The interactive search on content `XaYa` reduces to the inner loop
started at column 1. -/
theorem appStatePerformSearch_xaya (f : Nat) :
    (appStatePerformSearch f c2Line c2State).searchResults =
      searchLineGo c2Line c2Query 0 f 1 := by
  rw [(appStatePerformSearch_state f c2Line c2State (by decide)).1]
  show (splitLines c2Line).enum.flatMap _ = _
  have hsplit : splitLines c2Line = [c2Line] := by decide
  rw [hsplit]
  show searchLineGo c2Line c2Query 0 f (strIndex c2Line c2Query) ++ [].flatMap _ = _
  have hidx : strIndex c2Line c2Query = 1 := by decide
  rw [hidx]
  simp

/-- C2: the claim states that the line-oriented interactive search terminates
and lists each line's non-overlapping occurrences in ascending column order
without duplicates.  The code violates this: the inner loop rebases the found
index against the suffix `line[index+len(q):]` but re-adds only `len(q)`,
dropping the suffix's start offset.  On the single-line content `XaYa` with
query `a` (occurrences at columns 1 and 3) the loop records `(0,1), (0,2),
(0,1), (0,2), ...` forever: the method never terminates, and its per-fuel
output repeats columns and is not ascending. -/
theorem c2_line_search_diverges :
    strIndex c2Line c2Query = 1 ∧
    searchLineGo c2Line c2Query 0 4 1 = [(0, 1), (0, 2), (0, 1), (0, 2)] ∧
    ∀ f : Nat, ((appStatePerformSearch f c2Line c2State).searchResults).length = f := by
  refine ⟨by decide, by decide, fun f => ?_⟩
  rw [appStatePerformSearch_xaya]
  exact (searchLineGo_xaya_length f).1

/-! ## Claim C7 -/

/-- C7: when regex compilation of the (possibly `(?i)`-prefixed) query fails,
`performSearch` with `useRegex = true` returns an empty match sequence and
writes the error to the error log (the `Bool` component); the embedding is a
total function, reflecting that the Go code path returns normally rather than
panicking. -/
theorem c7_regex_compile_failure_empty
    (compile : List Char → Option (List (Nat × Nat)))
    (content q : List Char) (cs : Bool)
    (h : compile (if cs then q else "(?i)".data ++ q) = none) :
    performSearchGo compile content q ⟨cs, true⟩ = ([], true) := by
  have hdef : performSearchGo compile content q ⟨cs, true⟩ =
      (match compile (if cs then q else "(?i)".data ++ q) with
        | none => ([], true)
        | some ms => (ms.map (fun m => m.1), false)) := rfl
  rw [hdef, h]

/-- C7 witness: a compile function failing on the unbalanced pattern `(`. -/
theorem c7_witness :
    ((fun _ : List Char => (none : Option (List (Nat × Nat))))
        (if true then "(".data else "(?i)".data ++ "(".data) = none) ∧
    performSearchGo (fun _ => none) "abc".data "(".data ⟨true, true⟩ = ([], true) :=
  ⟨rfl, c7_regex_compile_failure_empty (fun _ => none) "abc".data "(".data true rfl⟩

/-! ## Claim C8 -/

/-- C8: on a non-empty result list of length `L` with current index `i`,
`0 ≤ i < L`, "next" sets the index to `(i+1) mod L` and "previous" to
`(i-1+L) mod L` (so next from `L-1` wraps to 0 and previous from 0 wraps to
`L-1`); on an empty result list both operations return the state unchanged. -/
theorem c8_navigation_wraps :
    (∀ st : appState, ∀ i L : Int,
        st.currentSearchIndex = i → (st.searchResults.length : Int) = L →
        0 ≤ i → i < L →
        (findNextResult st).currentSearchIndex = (i + 1) % L ∧
        (findPreviousResult st).currentSearchIndex = (i - 1 + L) % L) ∧
    (∀ st : appState, st.searchResults = [] →
        findNextResult st = st ∧ findPreviousResult st = st) := by
  constructor
  · intro st i L hi hL h0 hiL
    have hLpos : 0 < L := lt_of_le_of_lt h0 hiL
    have hne : st.searchResults.length ≠ 0 := by
      intro h
      rw [h] at hL
      omega
    constructor
    · rw [findNextResult_index st hne, hi, hL]
      exact Int.tmod_eq_emod (by omega) (by omega)
    · rw [findPreviousResult_index st hne, hi, hL]
      exact Int.tmod_eq_emod (by omega) (by omega)
  · intro st h
    have hlen : st.searchResults.length = 0 := by simp [h]
    constructor
    · unfold findNextResult
      simp [hlen]
    · unfold findPreviousResult
      simp [hlen]

/-- C8 witness: three results, index 0 — next goes to 1, previous wraps to 2. -/
theorem c8_witness :
    (c8State.currentSearchIndex = 0 ∧ ((c8State.searchResults.length : Int) = 3) ∧
      (0 : Int) ≤ 0 ∧ (0 : Int) < 3) ∧
    (findNextResult c8State).currentSearchIndex = (0 + 1) % 3 ∧
    (findPreviousResult c8State).currentSearchIndex = (0 - 1 + 3) % 3 :=
  ⟨⟨rfl, by decide, by decide, by decide⟩,
    c8_navigation_wraps.1 c8State 0 3 rfl (by decide) (by decide) (by decide)⟩

/-! ## Index-search characterization lemmas -/

/-- A found index is an occurrence, and the least one. -/
theorem strIndexNat_some_spec (s pat : List Char) :
    ∀ n, strIndexNat s pat = some n →
      pat.isPrefixOf (s.drop n) = true ∧
      ∀ m, m < n → pat.isPrefixOf (s.drop m) = false := by
  induction s with
  | nil =>
    intro n h
    unfold strIndexNat at h
    split at h
    · cases h
      exact ⟨by assumption, fun m hm => absurd hm (by omega)⟩
    · cases h
  | cons c t ih =>
    intro n h
    unfold strIndexNat at h
    split at h
    · cases h
      exact ⟨by assumption, fun m hm => absurd hm (by omega)⟩
    · rename_i hpre
      rcases Option.map_eq_some'.mp h with ⟨n', hn', rfl⟩
      obtain ⟨h1, h2⟩ := ih n' hn'
      refine ⟨by simpa [List.drop_succ_cons] using h1, fun m hm => ?_⟩
      cases m with
      | zero => simpa using Bool.not_eq_true _ ▸ (by simpa using hpre)
      | succ m' =>
        rw [List.drop_succ_cons]
        exact h2 m' (by omega)

/-- A failed search means no occurrence anywhere. -/
theorem strIndexNat_none_spec (s pat : List Char) :
    strIndexNat s pat = none →
      ∀ m, pat.isPrefixOf (s.drop m) = false := by
  induction s with
  | nil =>
    intro h m
    unfold strIndexNat at h
    split at h
    · cases h
    · rename_i hpre
      simpa using Bool.not_eq_true _ ▸ (by simpa using hpre)
  | cons c t ih =>
    intro h m
    unfold strIndexNat at h
    split at h
    · cases h
    · rename_i hpre
      cases m with
      | zero => simpa using Bool.not_eq_true _ ▸ (by simpa using hpre)
      | succ m' =>
        rw [List.drop_succ_cons]
        exact ih (by simpa using h) m'

/-- Contraposition helper for `Bool`-valued tests. -/
theorem bool_false_ne_true {b : Bool} (h : b = false) : ¬ b = true := by
  simp [h]

/-- An occurrence of a non-empty pattern starts strictly inside the text. -/
theorem prefix_pos_lt (content q : List Char) (pos : Nat) (hq : q ≠ [])
    (h : q.isPrefixOf (content.drop pos) = true) : pos < content.length := by
  have hp := List.isPrefixOf_iff_prefix.mp h
  have hlen := hp.length_le
  have hql : 0 < q.length := List.length_pos.mpr hq
  rw [List.length_drop] at hlen
  omega

/-- The empty text contains no occurrence of a non-empty pattern. -/
theorem strIndexNat_nil_of_ne (q : List Char) (hq : q ≠ []) :
    strIndexNat [] q = none := by
  cases q with
  | nil => exact absurd rfl hq
  | cons a b => rfl

/-- Skipping match-free positions: if the first occurrence at or after `pos`
is at `pos + j`, the reference scan records it and continues past it. -/
theorem specScanLit_skip (q content : List Char) (hq : q ≠ []) :
    ∀ j pos, (∀ m, m < j → q.isPrefixOf (content.drop (pos + m)) = false) →
      q.isPrefixOf (content.drop (pos + j)) = true →
      specScanLit q content pos =
        (pos + j) :: specScanLit q content (pos + j + q.length) := by
  intro j
  induction j with
  | zero =>
    intro pos hmin hpre
    have hlt : pos < content.length :=
      prefix_pos_lt content q pos hq (by simpa using hpre)
    rw [specScanLit, dif_neg (by push_neg; exact ⟨hq, by omega⟩),
      if_pos (by simpa using hpre)]
    simp
  | succ j ih =>
    intro pos hmin hpre
    have hlt : pos + (j + 1) < content.length :=
      prefix_pos_lt content q (pos + (j + 1)) hq hpre
    have h0 := hmin 0 (by omega)
    rw [Nat.add_zero] at h0
    rw [specScanLit, dif_neg (by push_neg; exact ⟨hq, by omega⟩),
      if_neg (bool_false_ne_true h0)]
    have hmin' : ∀ m, m < j → q.isPrefixOf (content.drop (pos + 1 + m)) = false := by
      intro m hm
      have e : pos + 1 + m = pos + (m + 1) := by omega
      rw [e]
      exact hmin (m + 1) (by omega)
    have hpre' : q.isPrefixOf (content.drop (pos + 1 + j)) = true := by
      have e : pos + 1 + j = pos + (j + 1) := by omega
      rw [e]
      exact hpre
    have := ih (pos + 1) hmin' hpre'
    rw [this]
    have e : pos + 1 + j = pos + (j + 1) := by omega
    rw [e]

/-- If there is no occurrence at or after `pos`, the reference scan returns
nothing. -/
theorem specScanLit_of_none (q content : List Char) (hq : q ≠ []) :
    ∀ n pos, content.length + 1 ≤ pos + n →
      strIndexNat (content.drop pos) q = none → specScanLit q content pos = [] := by
  intro n
  induction n with
  | zero =>
    intro pos hn _
    rw [specScanLit, dif_pos (Or.inr (by omega))]
  | succ n ih =>
    intro pos hn hidx
    by_cases hbig : content.length < pos
    · rw [specScanLit, dif_pos (Or.inr hbig)]
    · have hnone := strIndexNat_none_spec _ _ hidx
      have h0 := hnone 0
      rw [List.drop_zero] at h0
      rw [specScanLit, dif_neg (by push_neg; exact ⟨hq, by omega⟩),
        if_neg (bool_false_ne_true h0)]
      apply ih (pos + 1) (by omega)
      cases h2 : strIndexNat (content.drop (pos + 1)) q with
      | none => rfl
      | some k =>
        obtain ⟨hk, -⟩ := strIndexNat_some_spec _ _ _ h2
        have e1 : (content.drop (pos + 1)).drop k = content.drop (pos + (1 + k)) := by
          rw [List.drop_drop]
          congr 1
          omega
        have e2 : (content.drop pos).drop (1 + k) = content.drop (pos + (1 + k)) := by
          rw [List.drop_drop]
        have hf := hnone (1 + k)
        rw [e2] at hf
        rw [e1] at hk
        rw [hk] at hf
        cases hf

/-- The implementation loop equals the reference scan: the Go loop's
`Index`-and-skip strategy records exactly the non-overlapping left-to-right
occurrences, whenever the query is non-empty and the fuel covers the text. -/
theorem litScanGo_eq_specScanLit (content q : List Char) (hq : q ≠ []) :
    ∀ n pos fuel, content.length + 1 ≤ pos + n → n ≤ fuel →
      litScanGo fuel content q pos = specScanLit q content pos := by
  intro n
  induction n with
  | zero =>
    intro pos fuel hn _
    have hdrop : content.drop pos = [] := List.drop_eq_nil_of_le (by omega)
    have hnone : strIndexNat (content.drop pos) q = none := by
      rw [hdrop]
      exact strIndexNat_nil_of_ne q hq
    have hspec : specScanLit q content pos = [] := by
      rw [specScanLit, dif_pos (Or.inr (by omega))]
    cases fuel with
    | zero => rw [hspec]; rfl
    | succ fuel =>
      rw [hspec]
      show (match strIndexNat (content.drop pos) q with
        | none => []
        | some idx => (pos + idx) :: litScanGo fuel content q (pos + idx + q.length)) = []
      rw [hnone]
  | succ n ih =>
    intro pos fuel hn hf
    cases hObs : strIndexNat (content.drop pos) q with
    | none =>
      have hspec := specScanLit_of_none q content hq (n + 1) pos hn hObs
      cases fuel with
      | zero => rw [hspec]; rfl
      | succ fuel =>
        rw [hspec]
        show (match strIndexNat (content.drop pos) q with
          | none => []
          | some idx => (pos + idx) :: litScanGo fuel content q (pos + idx + q.length)) = []
        rw [hObs]
    | some idx =>
      obtain ⟨hpre, hmin⟩ := strIndexNat_some_spec _ _ _ hObs
      have hpreA : q.isPrefixOf (content.drop (pos + idx)) = true := by
        have e : (content.drop pos).drop idx = content.drop (pos + idx) := by
          rw [List.drop_drop]
        rwa [e] at hpre
      have hminA : ∀ m, m < idx → q.isPrefixOf (content.drop (pos + m)) = false := by
        intro m hm
        have e : (content.drop pos).drop m = content.drop (pos + m) := by
          rw [List.drop_drop]
        rw [← e]
        exact hmin m hm
      have hql : 0 < q.length := List.length_pos.mpr hq
      cases fuel with
      | zero => omega
      | succ fuel =>
        rw [specScanLit_skip q content hq idx pos hminA hpreA]
        show (match strIndexNat (content.drop pos) q with
          | none => []
          | some i => (pos + i) :: litScanGo fuel content q (pos + i + q.length)) =
          (pos + idx) :: specScanLit q content (pos + idx + q.length)
        rw [hObs]
        show (pos + idx) :: litScanGo fuel content q (pos + idx + q.length) =
          (pos + idx) :: specScanLit q content (pos + idx + q.length)
        congr 1
        exact ih (pos + idx + q.length) fuel (by omega) (by omega)

/-- Unfolding of one loop step. -/
theorem litScanGo_succ (fuel : Nat) (content q : List Char) (pos : Nat) :
    litScanGo (fuel + 1) content q pos =
      (match strIndexNat (content.drop pos) q with
        | none => []
        | some idx => (pos + idx) :: litScanGo fuel content q (pos + idx + q.length)) := rfl

/-- Every recorded offset is at or after the scan position. -/
theorem litScanGo_lower (content q : List Char) :
    ∀ fuel pos x, x ∈ litScanGo fuel content q pos → pos ≤ x := by
  intro fuel
  induction fuel with
  | zero => intro pos x hx; cases hx
  | succ fuel ih =>
    intro pos x hx
    cases hObs : strIndexNat (content.drop pos) q with
    | none =>
      rw [litScanGo_succ, hObs] at hx
      cases hx
    | some idx =>
      rw [litScanGo_succ, hObs] at hx
      rcases List.mem_cons.mp hx with rfl | hx'
      · omega
      · have := ih (pos + idx + q.length) x hx'
        omega

/-- With a non-empty query the recorded offsets are strictly increasing, for
any fuel. -/
theorem litScanGo_chain (content q : List Char) (hq : q ≠ []) :
    ∀ fuel pos, List.Chain' (· < ·) (litScanGo fuel content q pos) := by
  intro fuel
  induction fuel with
  | zero => intro pos; exact List.chain'_nil
  | succ fuel ih =>
    intro pos
    cases hObs : strIndexNat (content.drop pos) q with
    | none =>
      rw [litScanGo_succ, hObs]
      exact List.chain'_nil
    | some idx =>
      rw [litScanGo_succ, hObs, List.chain'_cons']
      refine ⟨?_, ih _⟩
      intro y hy
      have hmem := List.mem_of_mem_head? hy
      have hlow := litScanGo_lower content q fuel (pos + idx + q.length) y hmem
      have hql : 0 < q.length := List.length_pos.mpr hq
      omega

/-- With the empty query the loop records the same position once per fuel
unit: the Go loop never terminates. -/
theorem litScanGo_empty_query (content : List Char) :
    ∀ fuel pos, litScanGo fuel content [] pos = List.replicate fuel pos := by
  intro fuel
  induction fuel with
  | zero => intro pos; rfl
  | succ fuel ih =>
    intro pos
    have h0 : strIndexNat (content.drop pos) [] = some 0 := by
      cases content.drop pos with
      | nil => rfl
      | cons a t => rfl
    rw [litScanGo_succ, h0]
    show (pos + 0) :: litScanGo fuel content [] (pos + 0 + 0) = List.replicate (fuel + 1) pos
    simp only [Nat.add_zero]
    rw [ih]
    rfl

/-! ## Claim C6 -/

/-- C6: the offset-based literal case-sensitive search returns the start
offsets of every non-overlapping occurrence scanning left to right (it equals
the position-by-position reference scan that records each occurrence and
advances past it), and in particular searching `a` in `aXaYa` returns exactly
`[0, 2, 4]`. -/
theorem c6_literal_search :
    (performSearchGo (fun _ => none) "aXaYa".data "a".data ⟨true, false⟩).1 = [0, 2, 4] ∧
    ∀ content q : List Char, q ≠ [] → ∀ fuel, content.length + 1 ≤ fuel →
      litScanGo fuel content q 0 = specScanLit q content 0 := by
  constructor
  · decide
  · intro content q hq fuel hf
    exact litScanGo_eq_specScanLit content q hq (content.length + 1) 0 fuel (by omega) (by omega)

/-- C6 witness: the reference-scan equivalence applied to `a` in `aXaYa`. -/
theorem c6_witness :
    ("a".data ≠ ([] : List Char)) ∧
    litScanGo ("aXaYa".data.length + 1) "aXaYa".data "a".data 0 =
      specScanLit "a".data "aXaYa".data 0 :=
  ⟨by decide, c6_literal_search.2 "aXaYa".data "a".data (by decide)
      ("aXaYa".data.length + 1) (by omega)⟩

/-! ## Claim C9 -/

/-- C9: for every content and non-empty query the literal-search loop
terminates (its fuel-indexed embedding is constant once the fuel covers the
content) and returns a strictly increasing offset sequence; non-emptiness is
necessary — with the empty query the loop records position `pos` once per
fuel unit and never stabilizes. -/
theorem c9_literal_loop :
    (∀ content q : List Char, ∀ pos fuel, q ≠ [] → content.length + 1 ≤ fuel →
        litScanGo fuel content q pos = litScanGo (content.length + 1) content q pos) ∧
    (∀ content q : List Char, ∀ pos fuel, q ≠ [] →
        List.Chain' (· < ·) (litScanGo fuel content q pos)) ∧
    (∀ content : List Char, ∀ pos fuel,
        litScanGo fuel content [] pos = List.replicate fuel pos) := by
  refine ⟨?_, ?_, ?_⟩
  · intro content q pos fuel hq hf
    rw [litScanGo_eq_specScanLit content q hq (content.length + 1) pos fuel
        (by omega) (by omega),
      litScanGo_eq_specScanLit content q hq (content.length + 1) pos
        (content.length + 1) (by omega) (by omega)]
  · intro content q pos fuel hq
    exact litScanGo_chain content q hq fuel pos
  · intro content pos fuel
    exact litScanGo_empty_query content fuel pos

/-- C9 witness: stabilization, ascending offsets and empty-query divergence
at concrete inputs. -/
theorem c9_witness :
    ("a".data ≠ ([] : List Char) ∧ "aXaYa".data.length + 1 ≤ 10) ∧
    litScanGo 10 "aXaYa".data "a".data 0 =
      litScanGo ("aXaYa".data.length + 1) "aXaYa".data "a".data 0 ∧
    List.Chain' (· < ·) (litScanGo 10 "aXaYa".data "a".data 0) ∧
    litScanGo 3 "aXaYa".data [] 0 = List.replicate 3 0 :=
  ⟨⟨by decide, by decide⟩,
    c9_literal_loop.1 "aXaYa".data "a".data 0 10 (by decide) (by decide),
    c9_literal_loop.2.1 "aXaYa".data "a".data 0 10 (by decide),
    c9_literal_loop.2.2 "aXaYa".data 0 3⟩

/-! ## Claim C10 -/

/-- Empty query: the search method returns the state unchanged. -/
theorem appStatePerformSearch_empty_query (fuel : Nat) (content : List Char)
    (st : appState) (h : st.searchString = []) :
    appStatePerformSearch fuel content st = st := by
  unfold appStatePerformSearch
  simp [h]

/-- A search pass with a non-empty query establishes the index invariant
unconditionally. -/
theorem appStatePerformSearch_inv (st : appState) (fuel : Nat)
    (content : List Char) (hq : st.searchString ≠ []) :
    searchInv (appStatePerformSearch fuel content st) := by
  obtain ⟨hres, hidx⟩ := appStatePerformSearch_state fuel content st hq
  constructor
  · intro _
    rw [hidx]
  · intro hne
    rw [hidx]
    exact ⟨le_refl 0, by exact_mod_cast List.length_pos.mpr hne⟩

/-- C10: the invariant `0 ≤ currentSearchIndex < |searchResults|` when
results exist and `currentSearchIndex = 0` when they do not is established by
the search pass (unconditionally for a non-empty query, preserved for the
empty-query no-op) and by `cancelSearch`, preserved by both navigation
operations, and makes `highlightCurrentResult`'s element access in bounds. -/
theorem c10_search_index_invariant :
    (∀ st : appState, ∀ fuel : Nat, ∀ content : List Char,
        st.searchString ≠ [] → searchInv (appStatePerformSearch fuel content st)) ∧
    (∀ st : appState, ∀ fuel : Nat, ∀ content : List Char,
        searchInv st → searchInv (appStatePerformSearch fuel content st)) ∧
    (∀ st : appState, searchInv (cancelSearch st)) ∧
    (∀ st : appState, searchInv st → searchInv (findNextResult st)) ∧
    (∀ st : appState, searchInv st → searchInv (findPreviousResult st)) ∧
    (∀ st : appState, searchInv st → st.searchResults ≠ [] →
        (st.searchResults.get? st.currentSearchIndex.toNat).isSome = true) := by
  refine ⟨?_, ?_, ?_, ?_, ?_, ?_⟩
  · intro st fuel content hq
    exact appStatePerformSearch_inv st fuel content hq
  · intro st fuel content hinv
    by_cases hq : st.searchString = []
    · rw [appStatePerformSearch_empty_query fuel content st hq]
      exact hinv
    · exact appStatePerformSearch_inv st fuel content hq
  · intro st
    exact ⟨fun _ => rfl, fun h => absurd rfl h⟩
  · intro st hinv
    rcases Nat.eq_zero_or_pos st.searchResults.length with hz | hpos
    · have hid : findNextResult st = st := by
        unfold findNextResult
        simp [hz]
      rw [hid]
      exact hinv
    · have hne : st.searchResults ≠ [] := by
        intro h
        rw [h] at hpos
        simp at hpos
      obtain ⟨h0, hlt⟩ := hinv.2 hne
      have hres := findNextResult_searchResults st
      have hidx := findNextResult_index st (by omega)
      have hL : (0 : Int) < (st.searchResults.length : Int) := by exact_mod_cast hpos
      constructor
      · intro h
        rw [hres] at h
        exact absurd h hne
      · intro _
        rw [hres, hidx]
        have h1 : (0 : Int) ≤ st.currentSearchIndex + 1 := by omega
        have h2 : (0 : Int) ≤ (st.searchResults.length : Int) := by omega
        rw [Int.tmod_eq_emod h1 h2]
        exact ⟨Int.emod_nonneg _ (by omega), Int.emod_lt_of_pos _ hL⟩
  · intro st hinv
    rcases Nat.eq_zero_or_pos st.searchResults.length with hz | hpos
    · have hid : findPreviousResult st = st := by
        unfold findPreviousResult
        simp [hz]
      rw [hid]
      exact hinv
    · have hne : st.searchResults ≠ [] := by
        intro h
        rw [h] at hpos
        simp at hpos
      obtain ⟨h0, hlt⟩ := hinv.2 hne
      have hres := findPreviousResult_searchResults st
      have hidx := findPreviousResult_index st (by omega)
      have hL : (0 : Int) < (st.searchResults.length : Int) := by exact_mod_cast hpos
      constructor
      · intro h
        rw [hres] at h
        exact absurd h hne
      · intro _
        rw [hres, hidx]
        have h1 : (0 : Int) ≤ st.currentSearchIndex - 1 + (st.searchResults.length : Int) := by
          omega
        have h2 : (0 : Int) ≤ (st.searchResults.length : Int) := by omega
        rw [Int.tmod_eq_emod h1 h2]
        exact ⟨Int.emod_nonneg _ (by omega), Int.emod_lt_of_pos _ hL⟩
  · intro st hinv hne
    obtain ⟨h0, hlt⟩ := hinv.2 hne
    have hn : st.currentSearchIndex.toNat < st.searchResults.length := by omega
    cases hgot : st.searchResults.get? st.currentSearchIndex.toNat with
    | none => exact absurd (List.get?_eq_none.mp hgot) (by omega)
    | some r => rfl

/-- C10 witness: the invariant facts applied at a concrete state. -/
theorem c10_witness :
    (c8State.searchString ≠ [] ∧ searchInv c8State ∧ c8State.searchResults ≠ []) ∧
    searchInv (appStatePerformSearch 5 "a".data c8State) ∧
    searchInv (cancelSearch c8State) ∧
    searchInv (findNextResult c8State) ∧
    (c8State.searchResults.get? c8State.currentSearchIndex.toNat).isSome = true :=
  ⟨⟨by decide, by constructor <;> decide, by decide⟩,
    c10_search_index_invariant.1 c8State 5 "a".data (by decide),
    c10_search_index_invariant.2.2.1 c8State,
    c10_search_index_invariant.2.2.2.1 c8State (by constructor <;> decide),
    c10_search_index_invariant.2.2.2.2.2 c8State (by constructor <;> decide) (by decide)⟩
